import Mathlib

/-!
Verification development for the AI-assisted text-transformation pipeline of
this repository (OpenAI integration of a resume editor): the client-side
transport adapter (`customFetch`), the server-side proxy endpoint
(`OpenAIController.proxy` / `OpenAIService.proxyRequest`), the content codec
(`convertTextToHtml`, `escapeHtml`), the context formatter
(`formatItemContext`) and the task operations (`improveWriting`,
`fixGrammar`, `changeTone`).

Strings are embedded as `List Char`.  JavaScript truthiness of optional
strings, numbers and JSON values is made explicit.  Fallible JavaScript
constructs (`JSON.parse`, thrown errors, rejected promises) are embedded as
`Option` / `Except` / explicit outcome constructors.
-/

/-- Strings of the JavaScript source, embedded as lists of characters. -/
abbrev Str := List Char

/-- The double-quote character (U+0022), written by code point to keep it out
of character literals. -/
def quoteChar : Char := Char.ofNat 34

/-- The apostrophe character (U+0027), written by code point. -/
def aposChar : Char := Char.ofNat 39

/-- The opening-brace character (U+007B), written by code point. -/
def openBraceChar : Char := Char.ofNat 123

/-- The closing-brace character (U+007D), written by code point. -/
def closeBraceChar : Char := Char.ofNat 125

/-- JavaScript whitespace (the class matched by the regex `\s` and trimmed by
`String.prototype.trim`): ASCII whitespace, NBSP, the Unicode space
separators, the line separators and the BOM. -/
def isJsWs (c : Char) : Bool :=
  let n := c.toNat
  n == 9 || n == 10 || n == 11 || n == 12 || n == 13 || n == 32 ||
  n == 0xA0 || n == 0x1680 || (decide (0x2000 ≤ n) && decide (n ≤ 0x200A)) ||
  n == 0x2028 || n == 0x2029 || n == 0x202F || n == 0x205F || n == 0x3000 ||
  n == 0xFEFF

/-- JavaScript `String.prototype.trim`: drop leading and trailing whitespace. -/
def jsTrim (s : Str) : Str :=
  ((s.dropWhile isJsWs).reverse.dropWhile isJsWs).reverse

/-- JavaScript line-terminator characters (the characters the regex `.` does
not match). -/
def isLineTerm (c : Char) : Bool :=
  let n := c.toNat
  n == 10 || n == 13 || n == 0x2028 || n == 0x2029

/-- Truthiness of an optional JavaScript string: `undefined`/`null` and the
empty string are falsy. -/
def strTruthy : Option Str → Bool
  | some s => s ≠ []
  | none => false

/-- JSON values (the possible results of `JSON.parse` and the payloads carried
over the proxy wire).  Numbers are kept as their source lexemes, since no code
under verification computes with them. -/
inductive JsValue where
  | null : JsValue
  | boolean (b : Bool) : JsValue
  | num (lexeme : Str) : JsValue
  | str (s : Str) : JsValue
  | arr (elems : List JsValue) : JsValue
  | obj (fields : List (Str × JsValue)) : JsValue

/-- Whether a JSON number lexeme denotes zero: no nonzero digit occurs in its
mantissa (the part before any exponent marker). -/
def jsNumIsZero (lexeme : Str) : Bool :=
  (lexeme.takeWhile (fun c => c ≠ 'e' ∧ c ≠ 'E')).all
    (fun c => !(c = '1' ∨ c = '2' ∨ c = '3' ∨ c = '4' ∨ c = '5' ∨
                c = '6' ∨ c = '7' ∨ c = '8' ∨ c = '9'))

/-- JavaScript truthiness of a JSON value: `null`, `false`, zero and the empty
string are falsy; every object and array is truthy. -/
def jsTruthy : JsValue → Bool
  | .null => false
  | .boolean b => b
  | .num lexeme => !jsNumIsZero lexeme
  | .str s => s ≠ []
  | .arr _ => true
  | .obj _ => true

/-- JSON whitespace (the characters `JSON.parse` skips between tokens). -/
def isJsonWs (c : Char) : Bool :=
  c == ' ' || c == '\t' || c == '\n' || c == '\r'

/-- Skip JSON whitespace. -/
def skipJsonWs (s : Str) : Str := s.dropWhile isJsonWs

/-- Decode one character of a JSON string body (after the opening quote),
handling backslash escapes.  Returns the decoded characters together with the
rest of the input, or `none` at the closing quote or on a malformed escape. -/
def isHexDigit (c : Char) : Bool :=
  c.isDigit || (decide ('a' ≤ c) && decide (c ≤ 'f')) ||
  (decide ('A' ≤ c) && decide (c ≤ 'F'))

/-- Value of one hexadecimal digit. -/
def hexVal (c : Char) : Nat :=
  if c.isDigit then c.toNat - 48
  else if decide ('a' ≤ c) && decide (c ≤ 'f') then c.toNat - 87
  else c.toNat - 55

/-- Parse the body of a JSON string after its opening quote, returning the
decoded string and the input following the closing quote. -/
def parseStringBody : Nat → Str → Option (Str × Str)
  | 0, _ => none
  | _, [] => none
  | fuel + 1, c :: rest =>
    if c = quoteChar then some ([], rest)
    else if c = '\\' then
      match rest with
      | [] => none
      | e :: rest2 =>
        let decoded : Option (Str × Str) :=
          if e = quoteChar then some ([quoteChar], rest2)
          else if e = '\\' then some (['\\'], rest2)
          else if e = '/' then some (['/'], rest2)
          else if e = 'b' then some ([Char.ofNat 8], rest2)
          else if e = 'f' then some ([Char.ofNat 12], rest2)
          else if e = 'n' then some (['\n'], rest2)
          else if e = 'r' then some ([Char.ofNat 13], rest2)
          else if e = 't' then some (['\t'], rest2)
          else if e = 'u' then
            match rest2 with
            | h1 :: h2 :: h3 :: h4 :: rest3 =>
              if isHexDigit h1 && isHexDigit h2 && isHexDigit h3 && isHexDigit h4 then
                some ([Char.ofNat
                  (((hexVal h1 * 16 + hexVal h2) * 16 + hexVal h3) * 16 + hexVal h4)], rest3)
              else none
            | _ => none
          else none
        match decoded with
        | some (cs, rest3) =>
          match parseStringBody fuel rest3 with
          | some (tail, rest4) => some (cs ++ tail, rest4)
          | none => none
        | none => none
    else if isLineTerm c || c.toNat < 32 then none
    else
      match parseStringBody fuel rest with
      | some (tail, rest2) => some (c :: tail, rest2)
      | none => none

/-- Parse a JSON number at the front of the input (sign, integer part,
optional fraction, optional exponent), returning its lexeme. -/
def parseNumberLexeme (s : Str) : Option (Str × Str) :=
  let (sign, s1) :=
    match s with
    | '-' :: rest => (['-'], rest)
    | _ => (([] : Str), s)
  match s1 with
  | [] => none
  | d :: _ =>
    if !d.isDigit then none
    else
      let (intPart, s2) :=
        if d = '0' then ([d], s1.tail)
        else (s1.takeWhile Char.isDigit, s1.dropWhile Char.isDigit)
      let (fracPart, s3) :=
        match s2 with
        | '.' :: rest =>
          let ds := rest.takeWhile Char.isDigit
          if ds = [] then ([], s2) else ('.' :: ds, rest.dropWhile Char.isDigit)
        | _ => (([] : Str), s2)
      let fracFailed := fracPart.isEmpty && (match s2 with | '.' :: _ => true | _ => false)
      if fracFailed then none
      else
        let (expPart, s4) :=
          match s3 with
          | e :: rest =>
            if e = 'e' ∨ e = 'E' then
              let (esign, rest2) :=
                match rest with
                | '+' :: r => (['+'], r)
                | '-' :: r => (['-'], r)
                | _ => (([] : Str), rest)
              let ds := rest2.takeWhile Char.isDigit
              if ds = [] then (([] : Str), s3)
              else (e :: (esign ++ ds), rest2.dropWhile Char.isDigit)
            else (([] : Str), s3)
          | [] => (([] : Str), s3)
        some (sign ++ intPart ++ fracPart ++ expPart, s4)

/-- The grammar production being parsed, for the single fuel-structural
recursion implementing `JSON.parse`: a whole value, an object body after its
opening brace, the remaining object members, an array body after its opening
bracket, or the remaining array elements. -/
inductive JsonCall where
  | value (s : Str) : JsonCall
  | objBody (s : Str) : JsonCall
  | members (s : Str) (acc : List (Str × JsValue)) : JsonCall
  | arrBody (s : Str) : JsonCall
  | elems (s : Str) (acc : List JsValue) : JsonCall

/-- The recursion of `JSON.parse` over the JSON grammar, structural on fuel so
that concrete inputs evaluate.  Every cycle in the production graph consumes
input, so fuel `3 * length + 16` (see `jsonParse`) never runs out. -/
def parseJson : Nat → JsonCall → Option (JsValue × Str)
  | 0, _ => none
  | fuel + 1, call =>
    match call with
    | .value s =>
      match skipJsonWs s with
      | [] => none
      | c :: rest =>
        if c = openBraceChar then parseJson fuel (.objBody rest)
        else if c = '[' then parseJson fuel (.arrBody rest)
        else if c = quoteChar then
          match parseStringBody (rest.length + 1) rest with
          | some (body, rest2) => some (JsValue.str body, rest2)
          | none => none
        else if c = 't' then
          if "rue".toList.isPrefixOf rest then some (JsValue.boolean true, rest.drop 3)
          else none
        else if c = 'f' then
          if "alse".toList.isPrefixOf rest then some (JsValue.boolean false, rest.drop 4)
          else none
        else if c = 'n' then
          if "ull".toList.isPrefixOf rest then some (JsValue.null, rest.drop 3)
          else none
        else
          match parseNumberLexeme (c :: rest) with
          | some (lexeme, rest2) => some (JsValue.num lexeme, rest2)
          | none => none
    | .objBody s =>
      match skipJsonWs s with
      | [] => none
      | c :: rest =>
        if c = closeBraceChar then some (JsValue.obj [], rest)
        else parseJson fuel (.members (c :: rest) [])
    | .members s acc =>
      match skipJsonWs s with
      | [] => none
      | c :: rest =>
        if c = quoteChar then
          match parseStringBody (rest.length + 1) rest with
          | some (key, rest2) =>
            match skipJsonWs rest2 with
            | ':' :: rest3 =>
              match parseJson fuel (.value rest3) with
              | some (v, rest4) =>
                match skipJsonWs rest4 with
                | ',' :: rest5 => parseJson fuel (.members rest5 (acc ++ [(key, v)]))
                | d :: rest5 =>
                  if d = closeBraceChar then some (JsValue.obj (acc ++ [(key, v)]), rest5)
                  else none
                | [] => none
              | none => none
            | _ => none
          | none => none
        else none
    | .arrBody s =>
      match skipJsonWs s with
      | [] => none
      | c :: rest =>
        if c = ']' then some (JsValue.arr [], rest)
        else parseJson fuel (.elems (c :: rest) [])
    | .elems s acc =>
      match parseJson fuel (.value s) with
      | some (v, rest) =>
        match skipJsonWs rest with
        | ',' :: rest2 => parseJson fuel (.elems rest2 (acc ++ [v]))
        | ']' :: rest2 => some (JsValue.arr (acc ++ [v]), rest2)
        | _ => none
      | none => none

/-- `JSON.parse` on a whole input: one JSON value with nothing but whitespace
after it; `none` embeds the thrown `SyntaxError`. -/
def jsonParse (s : Str) : Option JsValue :=
  match parseJson (3 * s.length + 16) (.value s) with
  | some (v, rest) => if skipJsonWs rest = [] then some v else none
  | none => none

example : jsonParse "null".toList = some JsValue.null := by rfl
example : jsonParse [openBraceChar] = none := by rfl
example : jsonParse "".toList = none := by rfl

/-!
## Content codec

`escapeHtml` and `convertTextToHtml` are translated from the hand-written
renderer (the implementation that builds `<p>`/`<ul>`/`<li>` markup itself and
escapes content with `escapeHtml`).  `convertTextToHtmlMd` models the
alternative implementation that delegates to the `markdown-it` library.
-/

/-- `escapeHtml`, per character: the replacement the regex
`/[&<>"']/g` with the escape map performs on one character. -/
def escapeChar (c : Char) : Str :=
  if c = '&' then "&amp;".toList
  else if c = '<' then "&lt;".toList
  else if c = '>' then "&gt;".toList
  else if c = quoteChar then "&quot;".toList
  else if c = aposChar then "&#039;".toList
  else [c]

/-- `escapeHtml`: replace every occurrence of the five HTML-significant
characters by its entity. -/
def escapeHtml (text : Str) : Str :=
  (text.map escapeChar).join

/-- The bullet-point test `trimmed.match(/^[-•]\s+(.+)$/)` applied to an
already-trimmed line: a leading `-` or `•`, at least one whitespace character,
then a non-empty capture containing no line terminator (`.` does not match
line terminators, and `$` is end of input without the `m` flag).  Returns the
captured group.  Since the line is trimmed, the capture is the text after the
maximal whitespace run following the marker. -/
def bulletMatch (trimmed : Str) : Option Str :=
  match trimmed with
  | [] => none
  | c :: rest =>
    if c = '-' ∨ c = '•' then
      match rest with
      | [] => none
      | d :: _ =>
        if isJsWs d then
          let content := rest.dropWhile isJsWs
          if content ≠ [] ∧ content.all (fun e => !isLineTerm e) then some content
          else none
        else none
    else none

/-- `flushList`: if any list items are pending, emit one `<ul>` element
containing each item escaped and wrapped in `<li>`. -/
def flushList (currentList : List Str) : List Str :=
  if currentList ≠ [] then
    ["<ul>".toList ++
      (currentList.map (fun item => "<li>".toList ++ escapeHtml item ++ "</li>".toList)).join ++
      "</ul>".toList]
  else []

/-- The line loop of `convertTextToHtml`: walk the lines, grouping consecutive
bullet lines into `currentList`, flushing the group as a `<ul>` before any
non-bullet content, and emitting each non-empty non-bullet line as an escaped
`<p>` paragraph (empty lines only flush). -/
def convertLoop : List Str → List Str → List Str → List Str
  | [], htmlParts, currentList => htmlParts ++ flushList currentList
  | line :: rest, htmlParts, currentList =>
    let trimmed := jsTrim line
    match bulletMatch trimmed with
    | some content => convertLoop rest htmlParts (currentList ++ [content])
    | none =>
      convertLoop rest
        ((htmlParts ++ flushList currentList) ++
          (if trimmed ≠ [] then ["<p>".toList ++ escapeHtml trimmed ++ "</p>".toList] else []))
        []

/-- `convertTextToHtml` (hand-written renderer): empty input yields the empty
string; otherwise split on newlines, run the line loop and join the parts. -/
def convertTextToHtml (text : Str) : Str :=
  if text = [] then []
  else (convertLoop (text.splitOn '\n') [] []).join

/-- The escaping performed by the `markdown-it` library on literal text
content (its `escapeHtml` utility): it replaces the characters `&`, `<`, `>`
and the double quote by entities, and leaves every other character — the
apostrophe included — unchanged.  Modelled from the `markdown-it` dependency,
which is not part of this repository. -/
def mdEscapeHtml (text : Str) : Str :=
  (text.map (fun c =>
    if c = '&' then "&amp;".toList
    else if c = '<' then "&lt;".toList
    else if c = '>' then "&gt;".toList
    else if c = quoteChar then "&quot;".toList
    else [c])).join

/-- Whether a trimmed line is plain inline text with no Markdown-significant
characters: only letters, digits, spaces and apostrophes, not starting with a
digit or space.  On such a line `markdown-it` emits exactly one paragraph. -/
def mdPlainInline (l : Str) : Bool :=
  (match l with
   | [] => false
   | c :: _ => c.isAlpha) &&
  l.all (fun c => c.isAlpha || c.isDigit || c = ' ' || c = aposChar)

/-- `convertTextToHtml` (markdown-it renderer, the alternative implementation):
`if (!text) return ""` and otherwise `md.render(text.trim())` with
`html: false`, `breaks: true`, `linkify: false`.  Modelled from the
`markdown-it` dependency (not part of this repository) on the fragment of
inputs this development evaluates it at: a single plain inline line renders as
one paragraph whose text content is escaped by `mdEscapeHtml`, followed by a
newline.  Inputs outside that fragment are not modelled and map to the empty
string. -/
def convertTextToHtmlMd (text : Str) : Str :=
  if text = [] then []
  else if mdPlainInline (jsTrim text) then
    "<p>".toList ++ mdEscapeHtml (jsTrim text) ++ "</p>\n".toList
  else []

example : convertTextToHtml "- a".toList = "<ul><li>a</li></ul>".toList := by rfl
example : convertTextToHtml "hi".toList = "<p>hi</p>".toList := by rfl
example :
    convertTextToHtml ("- a\n- b\n\nc".toList) =
      "<ul><li>a</li><li>b</li></ul><p>c</p>".toList := by rfl

/-!
## Context formatter

`formatItemContext` renders the in-progress item being edited.  The fields of
the `Record<string, unknown>` context that the function reads are embedded as
optional strings, with JavaScript truthiness. -/

/-- The edit-context mapping: the keys `formatItemContext` inspects. -/
structure ItemContext where
  company : Option Str := none
  position : Option Str := none
  location : Option Str := none
  date : Option Str := none
  typeOfEmployment : Option Str := none
  companyDescription : Option Str := none
  institution : Option Str := none
  studyType : Option Str := none
  area : Option Str := none
  score : Option Str := none

/-- Value of an optional field when interpolated (only ever used when the
field is truthy). -/
def fieldVal (o : Option Str) : Str := o.getD []

/-- The employment-shape lines of `formatItemContext`: rendered when
`company || position` is truthy — the `Position`/`Company` heading line, then
`Location`, `Date`, `Type of Employment`, `Company Description` for each
truthy field. -/
def empPart (ctx : ItemContext) : List Str :=
  if strTruthy ctx.company || strTruthy ctx.position then
    (if strTruthy ctx.position && strTruthy ctx.company then
      ["Position: ".toList ++ fieldVal ctx.position ++ " at ".toList ++ fieldVal ctx.company]
     else if strTruthy ctx.position then ["Position: ".toList ++ fieldVal ctx.position]
     else if strTruthy ctx.company then ["Company: ".toList ++ fieldVal ctx.company]
     else []) ++
    (if strTruthy ctx.location then ["Location: ".toList ++ fieldVal ctx.location] else []) ++
    (if strTruthy ctx.date then ["Date: ".toList ++ fieldVal ctx.date] else []) ++
    (if strTruthy ctx.typeOfEmployment then
      ["Type of Employment: ".toList ++ fieldVal ctx.typeOfEmployment] else []) ++
    (if strTruthy ctx.companyDescription then
      ["Company Description: ".toList ++ fieldVal ctx.companyDescription] else [])
  else []

/-- The education-shape lines of `formatItemContext`: rendered when
`institution` is truthy — the `Institution` line, then `Study Type`, `Area`,
`Date`, `Score` for each truthy field. -/
def eduPart (ctx : ItemContext) : List Str :=
  if strTruthy ctx.institution then
    ["Institution: ".toList ++ fieldVal ctx.institution] ++
    (if strTruthy ctx.studyType then ["Study Type: ".toList ++ fieldVal ctx.studyType] else []) ++
    (if strTruthy ctx.area then ["Area: ".toList ++ fieldVal ctx.area] else []) ++
    (if strTruthy ctx.date then ["Date: ".toList ++ fieldVal ctx.date] else []) ++
    (if strTruthy ctx.score then ["Score: ".toList ++ fieldVal ctx.score] else [])
  else []

/-- `formatItemContext`: push the experience-context lines, then the
education-context lines, and join with newlines. -/
def formatItemContext (itemContext : ItemContext) : Str :=
  List.intercalate ['\n'] (empPart itemContext ++ eduPart itemContext)

/-- The caller pattern around `formatItemContext` (as in `fixGrammar`,
`changeTone` and `improveWriting`): when an item context is provided, emit the
edit-context block only if the formatted text is truthy (non-empty). -/
def itemContextMessages (itemContext : Option ItemContext) : List Str :=
  match itemContext with
  | none => []
  | some ctx =>
    let contextText := formatItemContext ctx
    if contextText ≠ [] then
      ["Here is the context for the current item being edited:\n\n".toList ++
        contextText ++ "\n\n---\n\n".toList]
    else []

/-!
## Task operations

Each task operation sends one chat-completion request and post-processes the
response.  The embedding covers the response handling: the zero-choices check
and the construction of the returned rich text.  `inputText` is the text the
operation sent to the model (for the Markdown-pipeline operations, the
already-Markdown-converted input). -/

/-- The message of a completion choice: `content` is `string | null`. -/
structure ChoiceMessage where
  content : Option Str

/-- One completion choice. -/
structure Choice where
  message : ChoiceMessage

/-- The typed failures of the task operations. -/
inductive TaskError where
  | noCompletionChoices : TaskError

/-- Response handling of `fixGrammar`: reject with `NoCompletionChoices` on an
empty choice list, otherwise `choices[0].message.content?.trim() ?? inputText`
converted to HTML. -/
def fixGrammarResult (choices : List Choice) (inputText : Str) : Except TaskError Str :=
  match choices with
  | [] => .error .noCompletionChoices
  | c :: _ =>
    let plainText :=
      match c.message.content with
      | some s => jsTrim s
      | none => inputText
    .ok (convertTextToHtml plainText)

/-- Response handling of `changeTone`: identical structure to `fixGrammar`. -/
def changeToneResult (choices : List Choice) (inputText : Str) : Except TaskError Str :=
  match choices with
  | [] => .error .noCompletionChoices
  | c :: _ =>
    let plainText :=
      match c.message.content with
      | some s => jsTrim s
      | none => inputText
    .ok (convertTextToHtml plainText)

/-- Response handling of the Markdown-pipeline `improveWriting`: identical
structure to `fixGrammar`. -/
def improveWritingMdResult (choices : List Choice) (inputText : Str) : Except TaskError Str :=
  match choices with
  | [] => .error .noCompletionChoices
  | c :: _ =>
    let plainText :=
      match c.message.content with
      | some s => jsTrim s
      | none => inputText
    .ok (convertTextToHtml plainText)

/-- Response handling of the plain `improveWriting`
(`apps/client/src/services/openai/improve-writing.ts`): reject with
`NoCompletionChoices` on an empty choice list, otherwise
`choices[0].message.content?.trim() ?? text`. -/
def improveWritingResult (choices : List Choice) (text : Str) : Except TaskError Str :=
  match choices with
  | [] => .error .noCompletionChoices
  | c :: _ =>
    .ok (match c.message.content with
         | some s => jsTrim s
         | none => text)

/-!
## Transport adapter (`customFetch`)

The adapter is embedded in two stages: `customFetchRoute` computes the routing
decision (direct dispatch, the proxy call to submit, or the synchronous
`SyntaxError` thrown by `JSON.parse` on a non-JSON body), and `customFetch`
combines it with the outcome of the proxy call into the adapter result. -/

/-- The `RequestInit` fields the adapter reads. -/
structure FetchInit where
  method : Option Str := none
  body : Option Str := none
  headers : Option (List (Str × Str)) := none

/-- ASCII lower-casing of a header name (the normalization `Headers` applies). -/
def lowerAscii (s : Str) : Str :=
  s.map Char.toLower

/-- `new Headers(init.headers).get(name)`: case-insensitive lookup; all values
for the name are combined with a comma separator; `none` when absent. -/
def headersGet (hs : List (Str × Str)) (name : Str) : Option Str :=
  match hs.filter (fun p => lowerAscii p.1 = lowerAscii name) with
  | [] => none
  | matches0 => some (List.intercalate ", ".toList (matches0.map Prod.snd))

/-- The proxy call (`proxyBody` plus the forwarded authorization header) that
the adapter submits to `POST /openai/proxy`. -/
structure ProxyCall where
  baseURL : Str
  path : Str
  method : Str
  body : Option JsValue
  authorization : Option Str

/-- `url.replace(baseURL, "")` for a string pattern: remove the first
occurrence of the pattern. -/
def jsReplaceFirst (pat : Str) : Str → Str
  | [] => if pat.isPrefixOf [] then ([] : Str).drop pat.length else []
  | c :: r =>
    if pat.isPrefixOf (c :: r) then (c :: r).drop pat.length
    else c :: jsReplaceFirst pat r

/-- The routing decision of one `customFetch` call. -/
inductive RouteResult where
  | direct : RouteResult
  | thrownSyntaxError : RouteResult
  | proxied (call : ProxyCall) : RouteResult

/-- The method-inference chain of `customFetch`: `init?.method` when truthy,
else `POST` when `init?.body` is truthy, else `GET`. -/
def inferredMethod (init : Option FetchInit) : Str :=
  if strTruthy (init.bind (·.method)) then (init.bind (·.method)).getD []
  else if strTruthy (init.bind (·.body)) then "POST".toList
  else "GET".toList

/-- The authorization extraction of `customFetch`:
`new Headers(init.headers).get("authorization") || undefined` when
`init?.headers` is present. -/
def routeAuthorization (init : Option FetchInit) : Option Str :=
  match init.bind (·.headers) with
  | some hs =>
    match headersGet hs "authorization".toList with
    | some v => if v ≠ [] then some v else none
    | none => none
  | none => none

/-- The routing logic of `customFetch`: dispatch directly unless a truthy
`baseURL` is configured and prefixes the target URL; otherwise strip the
prefix to get the path (`url.replace(baseURL, "")`), infer the method, parse
the truthy body with `JSON.parse` (whose failure is the thrown
`SyntaxError`), extract the authorization header, and build the proxy call. -/
def customFetchRoute (baseURL : Option Str) (url : Str) (init : Option FetchInit) :
    RouteResult :=
  match baseURL with
  | none => .direct
  | some b =>
    if b = [] ∨ ¬ b.isPrefixOf url then .direct
    else if strTruthy (init.bind (·.body)) then
      match jsonParse ((init.bind (·.body)).getD []) with
      | none => .thrownSyntaxError
      | some v =>
        .proxied ⟨b, jsReplaceFirst b url, inferredMethod init, some v,
          routeAuthorization init⟩
    else
      .proxied ⟨b, jsReplaceFirst b url, inferredMethod init, none,
        routeAuthorization init⟩

/-- The failure of a proxy call as seen in the adapter `catch` block: an error
carrying a (truthy) axios `response` with optional `status` and `data`, an
error carrying a `response` key that is falsy, an `Error` instance, or any
other thrown value. -/
inductive ProxyFailure where
  | responseErr (status : Option Nat) (data : Option JsValue) : ProxyFailure
  | emptyResponseErr : ProxyFailure
  | errorInstance (message : Str) : ProxyFailure
  | nonError : ProxyFailure

/-- The response the adapter synthesizes for the SDK: status, status text and
a JSON body (the source serializes the body with `JSON.stringify`). -/
structure SynthResponse where
  status : Nat
  statusText : Str
  body : JsValue

/-- The default error payload of the adapter catch block. -/
def unknownErrorData : JsValue :=
  .obj [("error".toList, .obj [("message".toList, .str "Unknown error".toList)])]

/-- The adapter `catch` block: start from status 500 and the default payload;
an axios error with a truthy response overrides the status (when truthy) and
the data (when truthy); an `Error` instance contributes its message; the
status text is `Internal Server Error` exactly for status 500. -/
def synthesizeProxyError (f : ProxyFailure) : SynthResponse :=
  let statusAndData : Nat × JsValue :=
    match f with
    | .responseErr st data =>
      (match st with
       | some n => if n ≠ 0 then n else 500
       | none => 500,
       match data with
       | some d => if jsTruthy d then d else unknownErrorData
       | none => unknownErrorData)
    | .emptyResponseErr => (500, unknownErrorData)
    | .errorInstance msg =>
      (500, .obj [("error".toList, .obj [("message".toList, .str msg)])])
    | .nonError => (500, unknownErrorData)
  ⟨statusAndData.1,
   if statusAndData.1 = 500 then "Internal Server Error".toList else "Error".toList,
   statusAndData.2⟩

/-- The outcome of one `customFetch` call: the value of the native
`fetch(input, init)` promise (direct dispatch, input and init unchanged), a
response built by the adapter, or a synchronously thrown error. -/
inductive FetchOutcome where
  | native (url : Str) (init : Option FetchInit) : FetchOutcome
  | response (r : SynthResponse) : FetchOutcome
  | thrownSyntaxError : FetchOutcome

/-- `customFetch`: route the call; on direct dispatch return the native fetch
of the unchanged arguments; on a proxied call submit it (the `proxy` argument
is the outcome of the axios call to `/openai/proxy`) and synthesize a
status-200 response from the returned data, or the catch-block response on
failure. -/
def customFetch (baseURL : Option Str) (url : Str) (init : Option FetchInit)
    (proxy : ProxyCall → Except ProxyFailure JsValue) : FetchOutcome :=
  match customFetchRoute baseURL url init with
  | .direct => .native url init
  | .thrownSyntaxError => .thrownSyntaxError
  | .proxied call =>
    match proxy call with
    | .ok data => .response ⟨200, "OK".toList, data⟩
    | .error f => .response (synthesizeProxyError f)

/-!
## Proxy endpoint (server side)

`OpenAIService.proxyRequest` builds the target URL by concatenation, sets the
headers, and issues a `GET` without body when the method is `GET`, otherwise a
`POST` with the body.  `OpenAIController.proxy` defaults the method to `POST`
and forwards upstream failures with their status and data. -/

/-- The outbound HTTP request the service issues to the upstream API. -/
structure OutboundRequest where
  url : Str
  httpMethod : Str
  body : Option JsValue
  headers : List (Str × Str)

/-- The request `OpenAIService.proxyRequest` issues: URL `baseURL + path`,
`Content-Type: application/json`, the authorization forwarded as an
`Authorization` header when truthy; `httpService.get(url)` when the method is
`GET`, otherwise `httpService.post(url, body)`. -/
def proxyRequestTarget (baseURL path method : Str) (body : Option JsValue)
    (authorization : Option Str) : OutboundRequest :=
  let url := baseURL ++ path
  let headers :=
    [("Content-Type".toList, "application/json".toList)] ++
    (if strTruthy authorization then [("Authorization".toList, authorization.getD [])] else [])
  if method = "GET".toList then ⟨url, "GET".toList, none, headers⟩
  else ⟨url, "POST".toList, body, headers⟩

/-- An upstream HTTP response. -/
structure UpstreamResponse where
  status : Nat
  data : JsValue

/-- An upstream failure as the controller `catch` block sees it: an axios
error with an optional `response` (itself with optional status and data), or
any other thrown value. -/
inductive UpstreamFailure where
  | axiosErr (response : Option (Option Nat × Option JsValue)) : UpstreamFailure
  | otherErr : UpstreamFailure

/-- `OpenAIService.proxyRequest` end to end: issue the outbound request (the
`upstream` argument is the network) and return `response.data` on success. -/
def proxyRequestRun (upstream : OutboundRequest → Except UpstreamFailure UpstreamResponse)
    (baseURL path method : Str) (body : Option JsValue) (authorization : Option Str) :
    Except UpstreamFailure JsValue :=
  (upstream (proxyRequestTarget baseURL path method body authorization)).map (·.data)

/-- The request body of `POST /openai/proxy`. -/
structure ProxyEndpointBody where
  baseURL : Str
  path : Str
  method : Option Str
  body : Option JsValue

/-- `const method = body.method || "POST"`: the method the controller forwards
to the service — the request's method field when truthy, `POST` otherwise. -/
def controllerMethod (m : Option Str) : Str :=
  if strTruthy m then m.getD [] else "POST".toList

/-- An `HttpException` thrown by the controller: payload and HTTP status. -/
structure HttpExceptionVal where
  payload : JsValue
  status : Nat

/-- The controller `catch` block: an axios error with a truthy response is
re-thrown with the response data (when a string or non-null object, else a
generic payload) and the response status (when truthy, else 500); anything
else becomes the generic proxy-failure payload with status 500. -/
def controllerCatch (e : UpstreamFailure) : HttpExceptionVal :=
  match e with
  | .axiosErr (some (st, data)) =>
    let errorData :=
      match data with
      | some (.str s) => JsValue.str s
      | some (.obj fields) => JsValue.obj fields
      | some (.arr elems) => JsValue.arr elems
      | _ => unknownErrorData
    ⟨errorData, match st with | some n => if n ≠ 0 then n else 500 | none => 500⟩
  | .axiosErr none =>
    ⟨.obj [("error".toList,
       .obj [("message".toList,
         .str "Failed to proxy request to OpenAI-compatible API".toList)])], 500⟩
  | .otherErr =>
    ⟨.obj [("error".toList,
       .obj [("message".toList,
         .str "Failed to proxy request to OpenAI-compatible API".toList)])], 500⟩

/-- `OpenAIController.proxy`: default the method to `POST`, delegate to the
service, return the upstream data on success and the catch-block
`HttpException` on failure. -/
def controllerProxy (upstream : OutboundRequest → Except UpstreamFailure UpstreamResponse)
    (body : ProxyEndpointBody) (authorization : Option Str) :
    Except HttpExceptionVal JsValue :=
  match proxyRequestRun upstream body.baseURL body.path (controllerMethod body.method)
      body.body authorization with
  | .ok data => .ok data
  | .error e => .error (controllerCatch e)

/-!
## Escaping safety

`escOk` recognizes strings free of unescaped HTML-significant characters: no
raw `<`, `>`, quote or apostrophe, and every `&` starting one of the five
entities the codec emits.  `HtmlBlock` and `renderBlock` describe the shape of
the markup `convertTextToHtml` produces: a sequence of paragraph and list
elements whose literal text content is escaped. -/

/-- Whether the input begins with the tail of one of the five entities
(`amp;`, `lt;`, `gt;`, `quot;`, `#039;`). -/
def entityTail (t : Str) : Bool :=
  "amp;".toList.isPrefixOf t || "lt;".toList.isPrefixOf t ||
  "gt;".toList.isPrefixOf t || "quot;".toList.isPrefixOf t ||
  "#039;".toList.isPrefixOf t

/-- No unescaped HTML-significant character: raw `<`, `>`, quote and
apostrophe never occur, and every `&` begins an entity. -/
def escOk : Str → Bool
  | [] => true
  | c :: t =>
    if c = '<' ∨ c = '>' ∨ c = quoteChar ∨ c = aposChar then false
    else if c = '&' then entityTail t && escOk t
    else escOk t

/-- A block of the markup `convertTextToHtml` emits: a paragraph with (already
escaped) text content, or an unordered list of (already escaped) items. -/
inductive HtmlBlock where
  | par (s : Str) : HtmlBlock
  | list (items : List Str) : HtmlBlock

/-- Render one block as markup. -/
def renderBlock : HtmlBlock → Str
  | .par s => "<p>".toList ++ s ++ "</p>".toList
  | .list items =>
    "<ul>".toList ++
      (items.map (fun i => "<li>".toList ++ i ++ "</li>".toList)).join ++
      "</ul>".toList

/-- All literal text content of a block is free of unescaped
HTML-significant characters. -/
def blockOk : HtmlBlock → Prop
  | .par s => escOk s = true
  | .list items => ∀ i ∈ items, escOk i = true

/-- Appending one escaped character preserves `escOk`. -/
theorem escOk_escapeChar (c : Char) (t : Str) (h : escOk t = true) :
    escOk (escapeChar c ++ t) = true := by
  by_cases hamp : c = '&'
  · subst hamp
    rw [show escapeChar '&' ++ t = '&' :: 'a' :: 'm' :: 'p' :: ';' :: t from rfl]
    simp +decide [escOk, entityTail, List.isPrefixOf]
    exact h
  · by_cases hlt : c = '<'
    · subst hlt
      rw [show escapeChar '<' ++ t = '&' :: 'l' :: 't' :: ';' :: t from rfl]
      simp +decide [escOk, entityTail, List.isPrefixOf]
      exact h
    · by_cases hgt : c = '>'
      · subst hgt
        rw [show escapeChar '>' ++ t = '&' :: 'g' :: 't' :: ';' :: t from rfl]
        simp +decide [escOk, entityTail, List.isPrefixOf]
        exact h
      · by_cases hq : c = quoteChar
        · subst hq
          rw [show escapeChar quoteChar ++ t =
                '&' :: 'q' :: 'u' :: 'o' :: 't' :: ';' :: t from rfl]
          simp +decide [escOk, entityTail, List.isPrefixOf]
          exact h
        · by_cases hap : c = aposChar
          · subst hap
            rw [show escapeChar aposChar ++ t =
                  '&' :: '#' :: '0' :: '3' :: '9' :: ';' :: t from rfl]
            simp +decide [escOk, entityTail, List.isPrefixOf]
            exact h
          · have e1 : escapeChar c = [c] := by
              simp [escapeChar, hamp, hlt, hgt, hq, hap]
            rw [e1]
            show escOk (c :: t) = true
            simp only [escOk]
            rw [if_neg (by simp [hlt, hgt, hq, hap]), if_neg hamp]
            exact h

/-- `escapeHtml` output is always free of unescaped HTML-significant
characters. -/
theorem escapeHtml_escOk (s : Str) : escOk (escapeHtml s) = true := by
  induction s with
  | nil => rfl
  | cons c t ih =>
    have e : escapeHtml (c :: t) = escapeChar c ++ escapeHtml t := by
      simp [escapeHtml]
    rw [e]
    exact escOk_escapeChar c (escapeHtml t) ih

/-- The blocks `convertLoop` produces from the remaining lines and the pending
list items. -/
def blocksOf : List Str → List Str → List HtmlBlock
  | [], cur => if cur ≠ [] then [.list (cur.map escapeHtml)] else []
  | line :: rest, cur =>
    match bulletMatch (jsTrim line) with
    | some content => blocksOf rest (cur ++ [content])
    | none =>
      (if cur ≠ [] then [HtmlBlock.list (cur.map escapeHtml)] else []) ++
      ((if jsTrim line ≠ [] then [HtmlBlock.par (escapeHtml (jsTrim line))] else []) ++
        blocksOf rest [])

/-- `flushList` renders exactly the pending-list block. -/
theorem flushList_eq (cur : List Str) :
    flushList cur =
      (if cur ≠ [] then [HtmlBlock.list (cur.map escapeHtml)] else []).map renderBlock := by
  by_cases h : cur = []
  · simp [flushList, h]
  · simp [flushList, h, renderBlock, List.map_map, Function.comp_def]

/-- `convertLoop` emits the previously accumulated parts followed by the
rendering of `blocksOf`. -/
theorem convertLoop_eq (lines : List Str) :
    ∀ (parts cur : List Str),
      convertLoop lines parts cur = parts ++ (blocksOf lines cur).map renderBlock := by
  induction lines with
  | nil =>
    intro parts cur
    simp [convertLoop, blocksOf, flushList_eq]
  | cons line rest ih =>
    intro parts cur
    cases hbm : bulletMatch (jsTrim line) with
    | some content =>
      simp only [convertLoop, blocksOf, hbm]
      exact ih parts (cur ++ [content])
    | none =>
      simp only [convertLoop, blocksOf, hbm]
      rw [ih]
      by_cases hl : jsTrim line = []
      · simp [hl, flushList_eq, List.map_append, List.append_assoc]
      · simp [hl, flushList_eq, renderBlock, List.map_append, List.append_assoc]

/-- Every block `blocksOf` produces has escaped content. -/
theorem blocksOf_ok (lines : List Str) :
    ∀ cur, ∀ b ∈ blocksOf lines cur, blockOk b := by
  induction lines with
  | nil =>
    intro cur b hb
    by_cases h : cur = []
    · simp [blocksOf, h] at hb
    · simp only [blocksOf, h, ne_eq, not_false_iff, if_true, List.mem_singleton] at hb
      subst hb
      simp only [blockOk]
      intro i hi
      obtain ⟨j, _, rfl⟩ := List.mem_map.mp hi
      exact escapeHtml_escOk j
  | cons line rest ih =>
    intro cur b hb
    cases hbm : bulletMatch (jsTrim line) with
    | some content =>
      simp only [blocksOf, hbm] at hb
      exact ih (cur ++ [content]) b hb
    | none =>
      simp only [blocksOf, hbm] at hb
      rcases List.mem_append.mp hb with h1 | h2
      · by_cases h : cur = []
        · simp [h] at h1
        · simp only [h, ne_eq, not_false_iff, if_true, List.mem_singleton] at h1
          subst h1
          simp only [blockOk]
          intro i hi
          obtain ⟨j, _, rfl⟩ := List.mem_map.mp hi
          exact escapeHtml_escOk j
      · rcases List.mem_append.mp h2 with h3 | h4
        · by_cases hl : jsTrim line = []
          · simp [hl] at h3
          · simp only [hl, ne_eq, not_false_iff, if_true, List.mem_singleton] at h3
            subst h3
            exact escapeHtml_escOk (jsTrim line)
        · exact ih [] b h4

/-- `convertTextToHtml` output is a concatenation of rendered blocks whose
literal text content is entirely escaped. -/
theorem convertTextToHtml_blocks (text : Str) :
    ∃ blocks : List HtmlBlock,
      convertTextToHtml text = (blocks.map renderBlock).join ∧
      ∀ b ∈ blocks, blockOk b := by
  by_cases h : text = []
  · exact ⟨[], by simp [convertTextToHtml, h], by simp⟩
  · refine ⟨blocksOf (text.splitOn '\n') [], ?_, fun b hb => blocksOf_ok _ [] b hb⟩
    simp [convertTextToHtml, h, convertLoop_eq]

/-- When the pattern is a prefix, `replace(pat, "")` strips exactly that
prefix. -/
theorem jsReplaceFirst_isPrefix (pat s : Str) (h : pat.isPrefixOf s = true) :
    jsReplaceFirst pat s = s.drop pat.length := by
  cases s with
  | nil => simp [jsReplaceFirst, h]
  | cons c r => simp [jsReplaceFirst, h]

/-- Characterization of a proxied routing decision: the guard held and the
call fields are the stripped path, the inferred method, the parsed body and
the extracted authorization. -/
theorem customFetchRoute_proxied (b url : Str) (init : Option FetchInit) (call : ProxyCall)
    (h : customFetchRoute (some b) url init = .proxied call) :
    b ≠ [] ∧ b.isPrefixOf url = true ∧
      call = ⟨b, jsReplaceFirst b url, inferredMethod init,
        (if strTruthy (init.bind (·.body)) then jsonParse ((init.bind (·.body)).getD [])
         else none),
        routeAuthorization init⟩ := by
  by_cases hguard : b = [] ∨ ¬ b.isPrefixOf url = true
  · simp only [customFetchRoute, hguard, if_true] at h
    cases h
  · push_neg at hguard
    obtain ⟨hb, hpre⟩ := hguard
    refine ⟨hb, hpre, ?_⟩
    by_cases hbody : strTruthy (init.bind (·.body)) = true
    · simp only [customFetchRoute, hb, hpre, hbody, not_true, or_self, if_false, if_true,
        Bool.not_eq_true] at h ⊢
      cases hp : jsonParse ((init.bind (·.body)).getD []) with
      | none => rw [hp] at h; cases h
      | some v => rw [hp] at h; cases h; rfl
    · rw [Bool.not_eq_true] at hbody
      simp only [customFetchRoute, hb, hpre, hbody, not_true, or_self, if_false,
        Bool.false_eq_true] at h ⊢
      cases h; rfl

/-!
## Claims
-/

/-- C1: for every proxied call (configured base URL set, truthy and prefixing
the target URL), the transport adapter resolves the path as the target URL
with the base-URL prefix stripped, and infers the HTTP method with the
precedence: a provided (truthy) method verbatim; otherwise `POST` if a body is
present; otherwise `GET`.  In particular base URL `http://x/v1` with target
`http://x/v1/models`, no method and no body yields the proxy call with base
URL `http://x/v1`, path `/models` and method `GET`. -/
theorem claim_C1_proxied_path_and_method :
    (∀ (b url : Str) (init : Option FetchInit) (call : ProxyCall),
        customFetchRoute (some b) url init = .proxied call →
          call.baseURL = b ∧
          call.path = url.drop b.length ∧
          (∀ m : Str, init.bind (·.method) = some m → m ≠ [] → call.method = m) ∧
          (strTruthy (init.bind (·.method)) = false →
            strTruthy (init.bind (·.body)) = true → call.method = "POST".toList) ∧
          (strTruthy (init.bind (·.method)) = false →
            strTruthy (init.bind (·.body)) = false → call.method = "GET".toList)) ∧
    customFetchRoute (some "http://x/v1".toList) "http://x/v1/models".toList
        (some ⟨none, none, none⟩) =
      RouteResult.proxied
        ⟨"http://x/v1".toList, "/models".toList, "GET".toList, none, none⟩ := by
  constructor
  · intro b url init call h
    obtain ⟨hb, hpre, hcall⟩ := customFetchRoute_proxied b url init call h
    subst hcall
    refine ⟨rfl, jsReplaceFirst_isPrefix b url hpre, ?_, ?_, ?_⟩
    · intro m hm hme
      show inferredMethod init = m
      simp [inferredMethod, hm, strTruthy, hme]
    · intro hm hb2
      show inferredMethod init = "POST".toList
      simp [inferredMethod, hm, hb2]
    · intro hm hb2
      show inferredMethod init = "GET".toList
      simp [inferredMethod, hm, hb2]
  · rfl

/-- Witness for C1: the general statement applied at the scenario input — the
path is `/models` (the prefix-stripped drop) and the inferred method is
`GET`. -/
theorem claim_C1_witness :
    "/models".toList = "http://x/v1/models".toList.drop ("http://x/v1".toList).length ∧
    ("GET".toList : Str) = "GET".toList := by
  have h := claim_C1_proxied_path_and_method
  have hg := h.1 "http://x/v1".toList "http://x/v1/models".toList
      (some ⟨none, none, none⟩)
      ⟨"http://x/v1".toList, "/models".toList, "GET".toList, none, none⟩ h.2
  exact ⟨hg.2.1, hg.2.2.2.2 rfl rfl⟩

/-- C8: with no configured base URL, every call is dispatched directly via the
native fetch with the original input and init unchanged, for every proxy
behavior. -/
theorem claim_C8_identity_passthrough (url : Str) (init : Option FetchInit)
    (proxy : ProxyCall → Except ProxyFailure JsValue) :
    customFetch none url init proxy = .native url init := rfl

/-- C2 counterexample: with a custom base URL in effect and a request body
that is not valid JSON, `customFetch` throws a `SyntaxError` (the
`JSON.parse(init.body)` call sits outside the `try`/`catch`), so it does not
resolve to a response-shaped result for every input. -/
theorem claim_C2_counterexample :
    customFetch (some "http://x/v1".toList) "http://x/v1/chat/completions".toList
        (some ⟨some "POST".toList, some [openBraceChar], none⟩)
        (fun _ => .ok JsValue.null) = .thrownSyntaxError := rfl

/-- C2 (amended): whenever the call is rerouted through the proxy (truthy base
URL prefixing the target) and its body, when truthy, is valid JSON,
`customFetch` resolves to a response-shaped result for every outcome of the
proxy call — including proxy failure — rather than raising. -/
theorem claim_C2_amended (b url : Str) (init : Option FetchInit)
    (proxy : ProxyCall → Except ProxyFailure JsValue)
    (hb : b ≠ []) (hpre : b.isPrefixOf url = true)
    (hjson : strTruthy (init.bind (·.body)) = true →
      (jsonParse ((init.bind (·.body)).getD [])).isSome = true) :
    ∃ r : SynthResponse, customFetch (some b) url init proxy = .response r := by
  have hguard : ¬(b = [] ∨ ¬ b.isPrefixOf url = true) := by simp [hb, hpre]
  by_cases hbody : strTruthy (init.bind (·.body)) = true
  · have hs := hjson hbody
    cases hp : jsonParse ((init.bind (·.body)).getD []) with
    | none => rw [hp] at hs; cases hs
    | some v =>
      have hroute : customFetchRoute (some b) url init =
          .proxied ⟨b, jsReplaceFirst b url, inferredMethod init, some v,
            routeAuthorization init⟩ := by
        simp only [customFetchRoute, hguard, if_false, hbody, if_true, hp]
      cases hpr : proxy ⟨b, jsReplaceFirst b url, inferredMethod init, some v,
          routeAuthorization init⟩ with
      | ok data =>
        exact ⟨⟨200, "OK".toList, data⟩, by simp only [customFetch, hroute, hpr]⟩
      | error f =>
        exact ⟨synthesizeProxyError f, by simp only [customFetch, hroute, hpr]⟩
  · rw [Bool.not_eq_true] at hbody
    have hroute : customFetchRoute (some b) url init =
        .proxied ⟨b, jsReplaceFirst b url, inferredMethod init, none,
          routeAuthorization init⟩ := by
      simp only [customFetchRoute, hguard, if_false, hbody, Bool.false_eq_true]
    cases hpr : proxy ⟨b, jsReplaceFirst b url, inferredMethod init, none,
        routeAuthorization init⟩ with
    | ok data =>
      exact ⟨⟨200, "OK".toList, data⟩, by simp only [customFetch, hroute, hpr]⟩
    | error f =>
      exact ⟨synthesizeProxyError f, by simp only [customFetch, hroute, hpr]⟩

/-- Witness for C2 (amended): at a concrete rerouted call with no body and a
failing proxy, the adapter resolves to a response. -/
theorem claim_C2_witness :
    ∃ r : SynthResponse,
      customFetch (some ['x']) "x/models".toList none (fun _ => .error .nonError) =
        .response r :=
  claim_C2_amended ['x'] "x/models".toList none (fun _ => .error .nonError)
    (by decide) (by decide) (by decide)

/-- The upstream failure body of the C3 scenario. -/
def badKeyBody : JsValue :=
  .obj [("error".toList, .obj [("message".toList, .str "bad key".toList)])]

/-- C3: when the proxy call fails carrying a truthy upstream status and a
truthy body, the adapter synthesizes a response with exactly that status and
that body (its own 500 default is never substituted); the failure branch of
`customFetch` returns exactly that synthesized response; scenario: upstream
status 401 with body `error.message = bad key` yields a synthesized response
with status 401 and that exact body. -/
theorem claim_C3_upstream_error_passthrough :
    (∀ (st : Nat) (data : JsValue), st ≠ 0 → jsTruthy data = true →
      synthesizeProxyError (.responseErr (some st) (some data)) =
        ⟨st, if st = 500 then "Internal Server Error".toList else "Error".toList, data⟩) ∧
    (∀ (b url : Str) (init : Option FetchInit)
        (proxy : ProxyCall → Except ProxyFailure JsValue) (call : ProxyCall)
        (f : ProxyFailure),
      customFetchRoute (some b) url init = .proxied call →
      proxy call = .error f →
      customFetch (some b) url init proxy = .response (synthesizeProxyError f)) ∧
    synthesizeProxyError (.responseErr (some 401) (some badKeyBody)) =
      ⟨401, "Error".toList, badKeyBody⟩ := by
  refine ⟨?_, ?_, rfl⟩
  · intro st data hst hdata
    simp [synthesizeProxyError, hst, hdata]
  · intro b url init proxy call f hroute hpf
    simp only [customFetch, hroute, hpf]

/-- Witness for C3: the passthrough equation at status 401 with the bad-key
body, and the failure branch at a concrete rerouted call. -/
theorem claim_C3_witness :
    synthesizeProxyError (.responseErr (some 401) (some badKeyBody)) =
      ⟨401, "Error".toList, badKeyBody⟩ ∧
    customFetch (some ['x']) ['x'] none
        (fun _ => .error (.responseErr (some 401) (some badKeyBody))) =
      .response (synthesizeProxyError (.responseErr (some 401) (some badKeyBody))) := by
  have h := claim_C3_upstream_error_passthrough
  constructor
  · simpa using h.1 401 badKeyBody (by decide) rfl
  · exact h.2.1 ['x'] ['x'] none _
      ⟨['x'], [], "GET".toList, none, none⟩
      (.responseErr (some 401) (some badKeyBody)) rfl rfl

/-- C4 counterexample: the markdown-it-based `convertTextToHtml`
implementation emits the apostrophe of model-supplied content unescaped (the
library escapes only `&`, `<`, `>` and the double quote), so the conversion
does not escape all five HTML-significant characters regardless of which
renderer implementation is used. -/
theorem claim_C4_counterexample :
    convertTextToHtmlMd ['a', aposChar, 'b'] =
      "<p>".toList ++ ['a', aposChar, 'b'] ++ "</p>\n".toList ∧
    escOk (mdEscapeHtml ['a', aposChar, 'b']) = false ∧
    aposChar ∈ convertTextToHtmlMd ['a', aposChar, 'b'] := by
  refine ⟨rfl, rfl, ?_⟩
  decide

/-- C4 (amended): the `escapeHtml`-based `convertTextToHtml` implementation
escapes the five HTML-significant characters in all literal text content: its
output is a concatenation of paragraph and list blocks whose text content
contains no raw `<`, `>`, double quote or apostrophe and no `&` except as the
start of an emitted entity; `escapeHtml` always produces such content.  (The
markdown-it-based implementation does not escape the apostrophe, per the
counterexample.) -/
theorem claim_C4_amended :
    (∀ text : Str, ∃ blocks : List HtmlBlock,
      convertTextToHtml text = (blocks.map renderBlock).join ∧
      ∀ b ∈ blocks, blockOk b) ∧
    (∀ s : Str, escOk (escapeHtml s) = true) :=
  ⟨convertTextToHtml_blocks, escapeHtml_escOk⟩

/-- Witness for C4 (amended): the block decomposition at a concrete input
containing every HTML-significant character, and the escaping equation at that
content. -/
theorem claim_C4_witness :
    (∃ blocks : List HtmlBlock,
      convertTextToHtml ("- a&b".toList) = (blocks.map renderBlock).join ∧
      ∀ b ∈ blocks, blockOk b) ∧
    escOk (escapeHtml ('a' :: '&' :: '<' :: '>' :: quoteChar :: aposChar :: [])) = true :=
  ⟨claim_C4_amended.1 "- a&b".toList,
   claim_C4_amended.2 ('a' :: '&' :: '<' :: '>' :: quoteChar :: aposChar :: [])⟩

/-- C5 counterexample: for the method `DELETE` the proxy endpoint issues a
`POST` upstream, not the given method. -/
theorem claim_C5_counterexample :
    (proxyRequestTarget "http://u".toList "/p".toList "DELETE".toList (some JsValue.null)
        none).httpMethod = "POST".toList ∧
    (proxyRequestTarget "http://u".toList "/p".toList "DELETE".toList (some JsValue.null)
        none).httpMethod ≠ "DELETE".toList := by
  refine ⟨rfl, ?_⟩
  decide

/-- C5 (amended): for every proxy request the endpoint issues the outbound
request to the concatenation `baseURL ++ path`, performing a `GET` with no
body when the method is `GET` and otherwise a `POST` with the body (every
non-GET method is forwarded as `POST`), and returns the upstream response
body on success. -/
theorem claim_C5_amended (baseURL path method : Str) (body : Option JsValue)
    (authorization : Option Str)
    (upstream : OutboundRequest → Except UpstreamFailure UpstreamResponse) :
    (proxyRequestTarget baseURL path method body authorization).url = baseURL ++ path ∧
    (proxyRequestTarget baseURL path method body authorization).httpMethod =
      (if method = "GET".toList then "GET".toList else "POST".toList) ∧
    (proxyRequestTarget baseURL path method body authorization).body =
      (if method = "GET".toList then none else body) ∧
    proxyRequestRun upstream baseURL path method body authorization =
      (upstream (proxyRequestTarget baseURL path method body authorization)).map (·.data) := by
  refine ⟨?_, ?_, ?_, rfl⟩ <;>
    (unfold proxyRequestTarget; split_ifs with h <;> simp [h])

/-- C10: the controller forwards `POST` when the request's method field is
absent or the empty string, and forwards the method field verbatim when it is
a non-empty string. -/
theorem claim_C10_method_default :
    controllerMethod none = "POST".toList ∧
    controllerMethod (some []) = "POST".toList ∧
    ∀ s : Str, s ≠ [] → controllerMethod (some s) = s := by
  refine ⟨rfl, rfl, ?_⟩
  intro s hs
  simp [controllerMethod, strTruthy, hs]

/-- Witness for C10: a non-empty method is forwarded verbatim. -/
theorem claim_C10_witness : controllerMethod (some "GET".toList) = "GET".toList :=
  claim_C10_method_default.2.2 "GET".toList (by decide)

/-- C6 counterexample: a present but whitespace-only completion content does
not fall back to the pre-transformation input — the operation returns the
empty string instead of the original text. -/
theorem claim_C6_counterexample :
    improveWritingResult [⟨⟨some [' ']⟩⟩] "hello".toList = .ok [] ∧
    ([] : Str) ≠ "hello".toList := by
  refine ⟨rfl, ?_⟩
  decide

/-- C6 (amended): the fallback to the pre-transformation input happens exactly
when the chosen completion's content is absent (null): each operation then
returns its input (the plain `improveWriting` returns the original text, the
Markdown-pipeline operations render the already-converted input back to
HTML); a present but effectively empty content instead yields an empty
result. -/
theorem claim_C6_amended (inputText : Str) (rest : List Choice) :
    improveWritingResult (⟨⟨none⟩⟩ :: rest) inputText = .ok inputText ∧
    fixGrammarResult (⟨⟨none⟩⟩ :: rest) inputText = .ok (convertTextToHtml inputText) ∧
    changeToneResult (⟨⟨none⟩⟩ :: rest) inputText = .ok (convertTextToHtml inputText) ∧
    improveWritingMdResult (⟨⟨none⟩⟩ :: rest) inputText = .ok (convertTextToHtml inputText) ∧
    ∀ s : Str, jsTrim s = [] →
      improveWritingResult (⟨⟨some s⟩⟩ :: rest) inputText = .ok [] := by
  refine ⟨rfl, rfl, rfl, rfl, ?_⟩
  intro s hs
  simp [improveWritingResult, hs]

/-- Witness for C6 (amended): the absent-content fallback and the
empty-content behavior at concrete inputs. -/
theorem claim_C6_witness :
    improveWritingResult [⟨⟨none⟩⟩] "t".toList = .ok "t".toList ∧
    improveWritingResult [⟨⟨some [' ']⟩⟩] "t".toList = .ok [] := by
  have h := claim_C6_amended "t".toList []
  exact ⟨h.1, h.2.2.2.2 [' '] (by decide)⟩

/-- C7: a model response with zero completion choices makes every task
operation reject with the `NoCompletionChoices` failure; no replacement text
is produced, so the caller's text is left unchanged. -/
theorem claim_C7_no_choices_rejects (inputText : Str) :
    fixGrammarResult [] inputText = .error .noCompletionChoices ∧
    changeToneResult [] inputText = .error .noCompletionChoices ∧
    improveWritingMdResult [] inputText = .error .noCompletionChoices ∧
    improveWritingResult [] inputText = .error .noCompletionChoices :=
  ⟨rfl, rfl, rfl, rfl⟩

/-- C9 counterexample: with both `company` and `institution` populated,
`formatItemContext` renders lines of both shapes — the output equals neither
the employment-only render nor the education-only render, so the two shapes
are not mutually exclusive. -/
theorem claim_C9_counterexample :
    formatItemContext { company := some ['A'], institution := some ['B'] } =
      "Company: A\nInstitution: B".toList ∧
    ¬(formatItemContext { company := some ['A'], institution := some ['B'] } =
        List.intercalate ['\n']
          (empPart { company := some ['A'], institution := some ['B'] }) ∨
      formatItemContext { company := some ['A'], institution := some ['B'] } =
        List.intercalate ['\n']
          (eduPart { company := some ['A'], institution := some ['B'] })) := by
  refine ⟨rfl, ?_⟩
  decide

/-- C9 (amended): the two shapes render independently rather than exclusively:
the output is always the employment-shape lines followed by the
education-shape lines; it is empty when none of `company`, `position`,
`institution` is truthy (other known keys alone render nothing); and callers
emit the edit-context block only when the result is non-empty. -/
theorem claim_C9_amended (ctx : ItemContext) :
    formatItemContext ctx = List.intercalate ['\n'] (empPart ctx ++ eduPart ctx) ∧
    (strTruthy ctx.company = false → strTruthy ctx.position = false →
      strTruthy ctx.institution = false → formatItemContext ctx = []) ∧
    (formatItemContext ctx = [] → itemContextMessages (some ctx) = []) := by
  refine ⟨rfl, ?_, ?_⟩
  · intro h1 h2 h3
    simp [formatItemContext, empPart, eduPart, h1, h2, h3, List.intercalate]
  · intro h
    simp [itemContextMessages, h]

/-- Witness for C9 (amended): a context populating only `location` renders the
empty string and the caller emits no block. -/
theorem claim_C9_witness :
    formatItemContext { location := some ['L'] } = [] ∧
    itemContextMessages (some { location := some ['L'] }) = [] := by
  have h := claim_C9_amended { location := some ['L'] }
  have he := h.2.1 rfl rfl rfl
  exact ⟨he, h.2.2 he⟩
